import Mathlib

/-!
# baudsim and rocket: a shallow embedding

`src/baudsim/baudsim.c` copies standard input to standard output at a limited
rate.  The embedding below keeps the program's structure: `get_ms`, `pause`,
the throttle `while` loop, the body of the main `while` loop and `main`.

The C library is the environment.  It is modelled by a `World` record (the wall
clock, the output streams, a log of the library calls made) and by an `Env`
that says how the wall clock moves: how long every `nanosleep` call really
lasts and how much time passes before every `ftime` call returns.  Input bytes
carry the time `getchar` blocks before delivering them.

`int` values are mathematical integers reduced to 32 bits (`wrap32`) after every
arithmetic operation; the `ovf` flag of the world records whether any reduction
so far changed a value.

`src/rocket.c` builds a six byte packet for a RocketFM transmitter; the packet
construction of its `main` is embedded as `Rocket.main`.
-/

namespace Baudsim

/-! ## Machine integers -/

/-- Value held by a 32-bit two's-complement `int` after storing `x`. -/
def wrap32 (x : Int) : Int := (x + 2147483648) % 4294967296 - 2147483648

/-- Whether `x` is representable as a 32-bit `int`. -/
def inInt (x : Int) : Bool := decide (-2147483648 ≤ x) && decide (x < 2147483648)

/-! ## The environment -/

/-- The two fields of `struct timeb` the program reads. -/
structure Timeb where
  time : Int
  millitm : Int
deriving DecidableEq, Repr

/-- Milliseconds since the epoch denoted by a `struct timeb`. -/
def Timeb.toMs (t : Timeb) : Int := t.time * 1000 + t.millitm

/-- Library calls recorded in the log of a run. -/
inductive Event where
  | read (c : Int)
  | write (b : Fin 256)
  | pause
  | flush
  | origin
deriving DecidableEq, Repr

/-- How the wall clock moves: `pauseLen k` is the number of milliseconds the
`k`-th `nanosleep` call lasts, `lag k` the number of milliseconds that pass
before the `k`-th `ftime` call returns.  Both are natural numbers: every clock
of the model is monotone. -/
structure Env where
  pauseLen : Nat → Nat
  lag : Nat → Nat

/-- The clock that advances exactly one millisecond per pause and by nothing
else. -/
def nominal : Env := { pauseLen := fun _ => 1, lag := fun _ => 0 }

/-- State of the environment. -/
structure World where
  now : Int
  reads : Nat
  pauses : Nat
  ovf : Bool
  stdout : List (Fin 256)
  stderr : String
  trace : List Event
deriving DecidableEq, Repr

/-- A fresh environment whose wall clock shows `t0` milliseconds. -/
def World.init (t0 : Int) : World :=
  { now := t0, reads := 0, pauses := 0, ovf := false, stdout := [], stderr := "", trace := [] }

/-- Append an event to the log. -/
def World.log (w : World) (e : Event) : World := { w with trace := w.trace ++ [e] }

/-- Store `x` in an `int`: the value is reduced to 32 bits and the overflow flag
is raised when the reduction changed it. -/
def toInt (x : Int) (w : World) : Int × World :=
  (wrap32 x, { w with ovf := w.ovf || !inInt x })

/-- Library call `ftime`: the wall clock, split in seconds and milliseconds. -/
def ftime (env : Env) (w : World) : Timeb × World :=
  let t := w.now + env.lag w.reads
  ({ time := t / 1000, millitm := t % 1000 }, { w with now := t, reads := w.reads + 1 })

/-- Conversion of an `int` to `unsigned char`. -/
def toUChar (c : Int) : Fin 256 := Fin.ofNat (c % 256).toNat

/-- Library call `putchar`. -/
def putchar (c : Int) (w : World) : World :=
  { w with stdout := w.stdout ++ [toUChar c], trace := w.trace ++ [Event.write (toUChar c)] }

/-- Library call `fflush(stdout)`. -/
def fflush (w : World) : World := w.log Event.flush

/-- Library call `getchar` delivering byte `b` after blocking for `gap`
milliseconds; the result is the byte as a non-negative `int`. -/
def getchar (gap : Nat) (b : Fin 256) (w : World) : Int × World :=
  ((b.val : Int), { w with now := w.now + gap, trace := w.trace ++ [Event.read (b.val : Int)] })

/-- Library call `getchar` at end of input: the result is `-1`. -/
def getcharEOF (w : World) : Int × World := (-1, w.log (Event.read (-1)))

/-- Bytes of a string literal. -/
def bytesOf (s : String) : List (Fin 256) := s.toList.map (fun ch => Fin.ofNat ch.toNat)

/-- Library call `printf` of a literal to standard output. -/
def printf (s : String) (w : World) : World := { w with stdout := w.stdout ++ bytesOf s }

/-! ## The program -/

/-- Function `get_ms`: milliseconds between `start_time` and now, as an `int`. -/
def get_ms (env : Env) (start_time : Timeb) (w : World) : Int × World :=
  let r := ftime env w
  let now := r.1
  let d1 := toInt (now.time - start_time.time) r.2
  let d2 := toInt (d1.1 * 1000) d1.2
  let d3 := toInt (d2.1 + now.millitm) d2.2
  let d4 := toInt (d3.1 - start_time.millitm) d3.2
  d4

/-- Function `pause`: `nanosleep` for `1 * 1000 * 1000` nanoseconds.  The
environment says how long the call really lasts: 1 ms on the nominal clock. -/
def pause (env : Env) (w : World) : World :=
  { w with now := w.now + env.pauseLen w.pauses, pauses := w.pauses + 1,
           trace := w.trace ++ [Event.pause] }

/-- The allowance test of the throttle loop, `chars > this_ms * baud / 10000`,
with its `int` product. -/
def overBudget (chars baud this_ms : Int) (w : World) : Bool × World :=
  let p := toInt (this_ms * baud) w
  (decide (chars > Int.tdiv p.1 10000), p.2)

/-- The throttle loop `while (chars > this_ms * baud / 10000) { pause();
this_ms = get_ms(); }`, allowed at most `fuel` iterations.  The result is the
last value of `this_ms` and the world at loop exit. -/
def throttle (env : Env) (start_time : Timeb) (chars baud : Int) :
    Nat → Int → World → Option (Int × World)
  | 0, this_ms, w =>
    if (overBudget chars baud this_ms w).1 then none
    else some (this_ms, (overBudget chars baud this_ms w).2)
  | fuel + 1, this_ms, w =>
    if (overBudget chars baud this_ms w).1 then
      let r := get_ms env start_time (pause env (overBudget chars baud this_ms w).2)
      throttle env start_time chars baud fuel r.1 r.2
    else some (this_ms, (overBudget chars baud this_ms w).2)

/-- The variables of `main` that change in the loop, with the static
`start_time`. -/
structure State where
  start_time : Timeb
  chars : Int
  last_ms : Int
deriving DecidableEq, Repr

/-- Lines 55 to 57 of `main`: the counter is cleared, `start_time` is taken
again (the log records it) and `last_ms` is read on the new origin. -/
def restart (env : Env) (w : World) : State × World :=
  let t := ftime env w
  let l := get_ms env t.1 (t.2.log Event.origin)
  ({ start_time := t.1, chars := 0, last_ms := l.1 }, l.2)

/-- State and world at the first test of the main loop when the arguments are
accepted: lines 41, 46 and 47 of `main` do what `restart` does. -/
def startup (env : Env) (w : World) : State × World := restart env w

/-- Lines 59 to 67 of `main`: the byte is counted and the throttle loop runs
from the reading `this_ms`. -/
def countAndThrottle (env : Env) (fuel : Nat) (baud : Int) (s : State) (this_ms : Int)
    (w : World) : Option (State × World) :=
  let n := toInt (s.chars + 1) w
  match throttle env s.start_time n.1 baud fuel this_ms n.2 with
  | none => none
  | some x => some ({ s with chars := n.1 }, x.2)

/-- Body of the main loop for a character `c` already read: `putchar`, the
reading `this_ms`, the test `this_ms - last_ms > 100` with its two branches,
and `fflush`. -/
def body (env : Env) (fuel : Nat) (baud : Int) (c : Int) (s : State) (w : World) :
    Option (State × World) :=
  let w1 := putchar c w
  let r := get_ms env s.start_time w1
  let this_ms := r.1
  let d := toInt (this_ms - s.last_ms) r.2
  (if d.1 > 100 then some (restart env d.2)
   else countAndThrottle env fuel baud s this_ms d.2).map (fun x => (x.1, fflush x.2))

/-- The main loop `while ((c = getchar()) != -1) { ... }` over the pending
input; every throttle loop is allowed `fuel` iterations. -/
def mainLoop (env : Env) (fuel : Nat) (baud : Int) :
    List (Nat × Fin 256) → State → World → Option (State × World)
  | [], s, w => some (s, (getcharEOF w).2)
  | (gap, b) :: rest, s, w =>
    let g := getchar gap b w
    if g.1 = -1 then some (s, g.2)
    else
      match body env fuel baud g.1 s g.2 with
      | none => none
      | some x => mainLoop env fuel baud rest x.1 x.2

/-- State at the head of the main loop once the bytes of `pre` have been
delivered and processed: the iterations of `mainLoop` without the final
`getchar`. -/
def loopHead (env : Env) (fuel : Nat) (baud : Int) :
    List (Nat × Fin 256) → State → World → Option (State × World)
  | [], s, w => some (s, w)
  | (gap, b) :: rest, s, w =>
    match body env fuel baud (getchar gap b w).1 s (getchar gap b w).2 with
    | none => none
    | some x => loopHead env fuel baud rest x.1 x.2

/-- Log of one iteration of the main loop for byte `b`: outcome `none` is an
iteration that restarts the window, outcome `some k` one that pauses `k`
times. -/
def iterLog (b : Fin 256) : Option Nat → List Event
  | none => [Event.read (b.val : Int), Event.write b, Event.origin, Event.flush]
  | some k =>
    [Event.read (b.val : Int), Event.write b] ++ List.replicate k Event.pause ++ [Event.flush]

/-- Log of the iterations for the bytes `bs` with the outcomes `os`. -/
def runLog : List (Fin 256) → List (Option Nat) → List Event
  | b :: bs, o :: os => iterLog b o ++ runLog bs os
  | _, _ => []

/-- The property "no pause happens while a written byte waits for its flush":
`pending` says whether a byte has been written and not flushed yet. -/
def flushedBeforePause : Bool → List Event → Bool
  | _, [] => true
  | _, Event.write _ :: t => flushedBeforePause true t
  | _, Event.flush :: t => flushedBeforePause false t
  | pending, Event.pause :: t => !pending && flushedBeforePause pending t
  | pending, _ :: t => flushedBeforePause pending t

/-- White space as skipped by a `scanf` conversion. -/
def isspace (c : Char) : Bool :=
  c == ' ' || c == '\t' || c == '\n' || c == '\x0b' || c == '\x0c' || c == '\r'

/-- Value of a run of decimal digits. -/
def digitsVal (acc : Int) : List Char → Int
  | [] => acc
  | d :: ds => digitsVal (acc * 10 + ((d.toNat - '0'.toNat : Nat) : Int)) ds

/-- The characters left once an optional sign has been consumed. -/
def afterSign (cs : List Char) : List Char :=
  if cs.head? == some '-' || cs.head? == some '+' then cs.tail else cs

/-- A decimal value as the C library converts it: held to the range of `long`
(64 bits). -/
def saturateLong (v : Int) : Int :=
  if v > 9223372036854775807 then 9223372036854775807
  else if v < -9223372036854775808 then -9223372036854775808
  else v

/-- Library call `sscanf(s, "%d", &n)`: the converted `int` when the conversion
succeeds (the call returns 1), nothing otherwise.  White space is skipped, a
sign is optional, at least one digit is needed, what follows the digits is
ignored.  The value is held to the range of `long` and then stored in the
`int`. -/
def sscanf_d (s : String) : Option Int :=
  let cs := s.toList.dropWhile isspace
  let neg := cs.head? == some '-'
  let run := (afterSign cs).takeWhile Char.isDigit
  if run.isEmpty then none
  else some (wrap32 (saturateLong (if neg then - digitsVal 0 run else digitsVal 0 run)))

/-- The argument starts, after optional white space and sign, with a decimal
digit. -/
def startsWithNumber (s : String) : Bool :=
  match afterSign (s.toList.dropWhile isspace) with
  | d :: _ => d.isDigit
  | [] => false

/-- The usage line. -/
def usageMsg : String := "Usage:  baudsim <baud>\n"

/-- The trailer. -/
def trailer : String := "\nbaudsim terminates.\n"

/-- Outcome of a run of `main`: the exit status and the final environment. -/
structure Result where
  status : Int
  world : World
deriving DecidableEq, Repr

/-- Function `main` on the argument vector `argv` (program name included) and
the input `stdin`, each byte with the time `getchar` blocks before it. -/
def main (env : Env) (fuel : Nat) (argv : List String) (stdin : List (Nat × Fin 256))
    (w : World) : Option Result :=
  let t := ftime env w
  let w1 := t.2.log Event.origin
  if argv.length ≠ 2 ∨ sscanf_d (argv.getD 1 "") = none then
    some { status := 1, world := { w1 with stderr := w1.stderr ++ usageMsg } }
  else
    let baud := (sscanf_d (argv.getD 1 "")).getD 0
    let l := get_ms env t.1 w1
    match mainLoop env fuel baud stdin { start_time := t.1, chars := 0, last_ms := l.1 } l.2 with
    | none => none
    | some x => some { status := 0, world := printf trailer x.2 }

/-- What holds at every test of the main loop on the nominal clock, for rates up
to 20000000. -/
structure NomInv (baud : Int) (s : State) (w : World) : Prop where
  last : s.last_ms = 0
  lo : 0 ≤ w.now - s.start_time.toMs
  hi : w.now - s.start_time.toMs ≤ 10101
  c0 : 0 ≤ s.chars
  cb : s.chars ≤ (w.now - s.start_time.toMs) * baud / 10000

end Baudsim

namespace Rocket

/-- Conversion of an `int` to `unsigned char`. -/
def toUChar (x : Int) : Nat := (x % 256).toNat

/-- The low four bits of a two's-complement `int`: `x & 0x0F`. -/
def low4 (x : Int) : Int := x % 16

/-- The initial value of `power` in `main`. -/
def power : Int := 1

/-- What `main` does with its arguments: send a packet with `set`, list the
devices with `enumerate`, or print the usage text and exit with status 1. -/
inductive Action where
  | set (packet : List Nat)
  | enumerate
  | usage
deriving DecidableEq, Repr

/-- Lines 147 to 160 of `main`: the six bytes of `PACKET` for the value
`encodedFreq` (an `unsigned short`); `mono` says whether `-m` was given. -/
def buildPacket (encodedFreq : Nat) (mono : Bool) : List Nat :=
  let p0 := toUChar 0xC0
  let p1 :=
    if mono then toUChar ((((encodedFreq >>> 8) &&& 0x07) ||| 0x40 : Nat) : Int)
    else toUChar ((((encodedFreq >>> 8) &&& 0x07) ||| 0x48 : Nat) : Int)
  let p2 := toUChar ((encodedFreq &&& 0xFF : Nat) : Int)
  let p3 := toUChar (low4 (~~~(2 * power + 1)))
  let p4 := toUChar 0x00
  let p5 := toUChar 0x00
  [p0, p1, p2, p3, p4, p5]

/-- Function `main` of `rocket.c` on the argument vector `argv` (program name
included).  The value `encodedFreq` that `main` derives from `argv[2]` with
`atof` and a `float` product is a parameter; it is stored in an
`unsigned short`. -/
def main (argv : List String) (encodedFreq : Nat) : Action :=
  let argc := argv.length
  if argc = 3 ∨ (argc = 4 ∧ argv.getD 3 "" = "-m") then
    if argv.getD 1 "" = "-freq" then
      Action.set (buildPacket (encodedFreq % 65536) (decide (argc = 4 ∧ argv.getD 3 "" = "-m")))
    else Action.usage
  else if argc = 2 ∧ argv.getD 1 "" = "-enumerate" then Action.enumerate
  else Action.usage

/-- The frequency a receiver reads back from a packet. -/
def decodeFreq (packet : List Nat) : Nat :=
  ((packet.getD 1 0 &&& 0x07) <<< 8) ||| packet.getD 2 0

end Rocket

namespace Baudsim

/-! ## Machine integer facts -/

theorem wrap32_eq_self {x : Int} (h1 : -2147483648 ≤ x) (h2 : x < 2147483648) :
    wrap32 x = x := by
  unfold wrap32; omega

theorem get_ms_val (env : Env) (st : Timeb) (w : World) :
    (get_ms env st w).1 = wrap32 (w.now + env.lag w.reads - st.toMs) := by
  simp only [get_ms, toInt, ftime, Timeb.toMs, wrap32]
  omega

@[simp] theorem get_ms_now (env : Env) (st : Timeb) (w : World) :
    (get_ms env st w).2.now = w.now + env.lag w.reads := rfl

@[simp] theorem get_ms_reads (env : Env) (st : Timeb) (w : World) :
    (get_ms env st w).2.reads = w.reads + 1 := rfl

@[simp] theorem get_ms_pauses (env : Env) (st : Timeb) (w : World) :
    (get_ms env st w).2.pauses = w.pauses := rfl

@[simp] theorem get_ms_trace (env : Env) (st : Timeb) (w : World) :
    (get_ms env st w).2.trace = w.trace := rfl

@[simp] theorem get_ms_stdout (env : Env) (st : Timeb) (w : World) :
    (get_ms env st w).2.stdout = w.stdout := rfl

@[simp] theorem get_ms_stderr (env : Env) (st : Timeb) (w : World) :
    (get_ms env st w).2.stderr = w.stderr := rfl

@[simp] theorem overBudget_now (c b e : Int) (w : World) :
    (overBudget c b e w).2.now = w.now := rfl

@[simp] theorem overBudget_reads (c b e : Int) (w : World) :
    (overBudget c b e w).2.reads = w.reads := rfl

@[simp] theorem overBudget_pauses (c b e : Int) (w : World) :
    (overBudget c b e w).2.pauses = w.pauses := rfl

@[simp] theorem overBudget_trace (c b e : Int) (w : World) :
    (overBudget c b e w).2.trace = w.trace := rfl

@[simp] theorem overBudget_stdout (c b e : Int) (w : World) :
    (overBudget c b e w).2.stdout = w.stdout := rfl

@[simp] theorem overBudget_stderr (c b e : Int) (w : World) :
    (overBudget c b e w).2.stderr = w.stderr := rfl

/-- Without overflow of the product the allowance test is the mathematical
one. -/
theorem overBudget_exact {c b e : Int} (w : World) (h0 : 0 ≤ e * b)
    (h1 : e * b < 2147483648) :
    (overBudget c b e w).1 = decide (e * b / 10000 < c) := by
  have hw : wrap32 (e * b) = e * b := wrap32_eq_self (by omega) h1
  have hd : (e * b).tdiv 10000 = e * b / 10000 := Int.tdiv_eq_ediv h0 (by norm_num)
  simp [overBudget, toInt, hw, hd]

/-! ## The throttle loop on the nominal clock -/

theorem throttle_nominal_run (st : Timeb) (n r : Int) (hr : 0 < r) :
    ∀ (k : Nat) (e0 : Int) (w : World), 0 ≤ e0 → w.now - st.toMs = e0 →
      (e0 + k) * r < 2147483648 →
      (∀ j : Nat, j < k → (e0 + j) * r / 10000 < n) → n ≤ (e0 + k) * r / 10000 →
      ∃ w', (∀ fuel, k ≤ fuel → throttle nominal st n r fuel e0 w = some (e0 + k, w')) ∧
        (∀ fuel, fuel < k → throttle nominal st n r fuel e0 w = none) ∧
        w'.now = w.now + k ∧ w'.pauses = w.pauses + k ∧ w'.reads = w.reads + k ∧
        w'.trace = w.trace ++ List.replicate k Event.pause ∧
        w'.stdout = w.stdout ∧ w'.stderr = w.stderr := by
  intro k
  induction k with
  | zero =>
    intro e0 w he0 _ hlt _ hle
    have hp : 0 ≤ e0 * r := Int.mul_nonneg he0 hr.le
    have hob : (overBudget n r e0 w).1 = false := by
      rw [overBudget_exact w hp (by simpa using hlt)]
      simpa using hle
    refine ⟨(overBudget n r e0 w).2, ?_, ?_, by simp, by simp, by simp, by simp, by simp,
      by simp⟩
    · intro fuel _
      cases fuel <;> simp [throttle, hob]
    · intro fuel hf
      exact absurd hf (Nat.not_lt_zero _)
  | succ k ih =>
    intro e0 w he0 hclk hlt hbelow hle
    have hp : 0 ≤ e0 * r := Int.mul_nonneg he0 hr.le
    have hlt0 : e0 * r < 2147483648 := by
      have : e0 * r ≤ (e0 + ((k + 1 : Nat) : Int)) * r :=
        Int.mul_le_mul_of_nonneg_right (by omega) hr.le
      omega
    have hob : (overBudget n r e0 w).1 = true := by
      rw [overBudget_exact w hp hlt0]
      have := hbelow 0 (Nat.succ_pos k)
      simpa using this
    have hval : (get_ms nominal st (pause nominal (overBudget n r e0 w).2)).1 = e0 + 1 := by
      rw [get_ms_val]
      simp only [pause, nominal, overBudget_now]
      have h1 : e0 + 1 ≤ (e0 + ((k + 1 : Nat) : Int)) * r := by
        have : (e0 + ((k + 1 : Nat) : Int)) * 1 ≤ (e0 + ((k + 1 : Nat) : Int)) * r :=
          Int.mul_le_mul_of_nonneg_left (by omega) (by omega)
        push_cast at this ⊢
        omega
      rw [wrap32_eq_self] <;> push_cast <;> omega
    have hnow : (get_ms nominal st (pause nominal (overBudget n r e0 w).2)).2.now - st.toMs
        = e0 + 1 := by
      simp [pause, nominal]; omega
    obtain ⟨w', hrun, hnone, h1, h2, h3, h4, h5, h6⟩ :=
      ih (e0 + 1) (get_ms nominal st (pause nominal (overBudget n r e0 w).2)).2 (by omega) hnow
        (by push_cast at hlt ⊢; rw [show e0 + 1 + (k : Int) = e0 + (k + 1) by ring]; exact hlt)
        (by
          intro j hj
          have := hbelow (j + 1) (by omega)
          push_cast at this
          rw [show e0 + 1 + (j : Int) = e0 + (j + 1) by ring]; exact this)
        (by push_cast at hle ⊢; rw [show e0 + 1 + (k : Int) = e0 + (k + 1) by ring]; exact hle)
    refine ⟨w', ?_, ?_, ?_, ?_, ?_, ?_, ?_, ?_⟩
    · intro fuel hfuel
      obtain ⟨f, rfl⟩ : ∃ f, fuel = f + 1 := ⟨fuel - 1, by omega⟩
      simp only [throttle, hob, if_true]
      rw [hval, hrun f (by omega)]
      congr 2; push_cast; ring
    · intro fuel hfuel
      cases fuel with
      | zero => simp [throttle, hob]
      | succ f =>
        simp only [throttle, hob, if_true]
        rw [hval, hnone f (by omega)]
    · rw [h1]; simp [pause, nominal]; ring
    · rw [h2]; simp [pause]; ring
    · rw [h3]; simp [pause]; ring
    · rw [h4]; simp [pause, List.replicate_succ]
    · rw [h5]; simp [pause]
    · rw [h6]; simp [pause]

/-- Ceiling division facts used for the number of pauses. -/
theorem ceil_mul_ge (a r : Int) (hr : 0 < r) : a ≤ (a + r - 1) / r * r := by
  have := Int.lt_ediv_add_one_mul_self (a + r - 1) hr
  linarith

theorem ceil_pred_mul_lt (a r : Int) (hr : 0 < r) : ((a + r - 1) / r - 1) * r < a := by
  have := Int.ediv_mul_le (a + r - 1) (ne_of_gt hr)
  linarith

/-- The throttle loop on the nominal clock, for products in `int` range. -/
theorem throttle_nominal_spec (st : Timeb) (r n e0 : Int) (w : World)
    (hr : 0 < r) (he0 : 0 ≤ e0) (hclk : w.now - st.toMs = e0)
    (hrange : max e0 ((n * 10000 + r - 1) / r) * r < 2147483648) :
    ∃ e w',
      (∀ fuel, (max 0 ((n * 10000 + r - 1) / r - e0)).toNat ≤ fuel →
        throttle nominal st n r fuel e0 w = some (e, w')) ∧
      (∀ fuel, fuel < (max 0 ((n * 10000 + r - 1) / r - e0)).toNat →
        throttle nominal st n r fuel e0 w = none) ∧
      (w'.pauses : Int) - w.pauses = max 0 ((n * 10000 + r - 1) / r - e0) ∧
      e = max e0 ((n * 10000 + r - 1) / r) ∧
      n ≤ e * r / 10000 ∧ w'.now - st.toMs = e := by
  have hT1 := ceil_mul_ge (n * 10000) r hr
  have hT2 := ceil_pred_mul_lt (n * 10000) r hr
  generalize (n * 10000 + r - 1) / r = T at hrange hT1 hT2 ⊢
  by_cases h : T ≤ e0
  · have hmax : max e0 T = e0 := max_eq_left h
    have hk : max 0 (T - e0) = 0 := max_eq_left (by omega)
    rw [hmax] at hrange
    have hle : n ≤ e0 * r / 10000 := by
      rw [Int.le_ediv_iff_mul_le (by norm_num)]
      have : T * r ≤ e0 * r := Int.mul_le_mul_of_nonneg_right h hr.le
      omega
    obtain ⟨w', hrun, hnone, h1, h2, _⟩ :=
      throttle_nominal_run st n r hr 0 e0 w he0 hclk (by simpa using hrange)
        (by intro j hj; exact absurd hj (Nat.not_lt_zero _)) (by simpa using hle)
    refine ⟨e0, w', ?_, ?_, ?_, hmax.symm, hle, by rw [h1]; simpa using hclk⟩
    · intro fuel hf
      simpa using hrun fuel (Nat.zero_le _)
    · intro fuel hf
      rw [hk] at hf
      exact absurd hf (Nat.not_lt_zero _)
    · rw [h2, hk]; simp
  · have h' : e0 < T := not_le.mp h
    have hmax : max e0 T = T := max_eq_right h'.le
    have hk : max 0 (T - e0) = T - e0 := max_eq_right (by omega)
    rw [hmax] at hrange
    have hcast : (((T - e0).toNat : Nat) : Int) = T - e0 := Int.toNat_of_nonneg (by omega)
    have hsum : e0 + (((T - e0).toNat : Nat) : Int) = T := by omega
    have hle : n ≤ T * r / 10000 := by
      rw [Int.le_ediv_iff_mul_le (by norm_num)]
      omega
    obtain ⟨w', hrun, hnone, h1, h2, _⟩ :=
      throttle_nominal_run st n r hr (T - e0).toNat e0 w he0 hclk (by rw [hsum]; exact hrange)
        (by
          intro j hj
          rw [Int.ediv_lt_iff_lt_mul (by norm_num)]
          have hj' : e0 + (j : Int) ≤ T - 1 := by omega
          have : (e0 + (j : Int)) * r ≤ (T - 1) * r := Int.mul_le_mul_of_nonneg_right hj' hr.le
          omega)
        (by rw [hsum]; exact hle)
    refine ⟨T, w', ?_, ?_, ?_, hmax.symm, hle, by rw [h1]; omega⟩
    · intro fuel hf
      rw [hk] at hf
      have := hrun fuel hf
      rwa [hsum] at this
    · intro fuel hf
      rw [hk] at hf
      exact hnone fuel hf
    · rw [h2, hk]; push_cast; omega

/-! ## Shape of the output and of the log -/

theorem toUChar_val (b : Fin 256) : toUChar (b.val : Int) = b := by
  have h : ((b.val : Int) % 256).toNat = b.val := by
    have := b.isLt
    omega
  apply Fin.ext
  simp only [toUChar, h, Fin.ofNat]
  exact Nat.mod_eq_of_lt b.isLt

theorem throttle_shape (env : Env) (st : Timeb) (c b : Int) :
    ∀ (fuel : Nat) (e : Int) (w : World) (x : Int × World),
      throttle env st c b fuel e w = some x →
      ∃ k, x.2.trace = w.trace ++ List.replicate k Event.pause ∧ x.2.stdout = w.stdout ∧
        x.2.stderr = w.stderr ∧ x.2.pauses = w.pauses + k := by
  intro fuel
  induction fuel with
  | zero =>
    intro e w x h
    by_cases hob : (overBudget c b e w).1 = true
    · simp [throttle, hob] at h
    · simp [throttle, hob] at h
      subst h
      exact ⟨0, by simp⟩
  | succ f ih =>
    intro e w x h
    by_cases hob : (overBudget c b e w).1 = true
    · simp only [throttle, hob, if_true] at h
      obtain ⟨k, h1, h2, h3, h4⟩ := ih _ _ _ h
      refine ⟨k + 1, ?_, ?_, ?_, ?_⟩
      · rw [h1]; simp [pause, List.replicate_succ]
      · rw [h2]; simp [pause]
      · rw [h3]; simp [pause]
      · rw [h4]; simp [pause]; ring
    · simp [throttle, hob] at h
      subst h
      exact ⟨0, by simp⟩

theorem countAndThrottle_shape (env : Env) (fuel : Nat) (baud : Int) (s : State) (e : Int)
    (w : World) (x : State × World) (h : countAndThrottle env fuel baud s e w = some x) :
    ∃ k, x.2.trace = w.trace ++ List.replicate k Event.pause ∧ x.2.stdout = w.stdout ∧
      x.2.stderr = w.stderr ∧ x.2.pauses = w.pauses + k := by
  simp only [countAndThrottle] at h
  split at h
  · exact absurd h (by simp)
  · rename_i y hy
    simp only [Option.some.injEq] at h
    subst h
    obtain ⟨k, h1, h2, h3, h4⟩ := throttle_shape _ _ _ _ _ _ _ _ hy
    exact ⟨k, by simp [h1, toInt], by simp [h2, toInt], by simp [h3, toInt],
      by simp [h4, toInt]⟩

/-- One iteration: the byte is written first, then the window is restarted or
the loop pauses, and the flush comes last. -/
theorem body_shape (env : Env) (fuel : Nat) (baud : Int) (gap : Nat) (b : Fin 256) (s : State)
    (w : World) (x : State × World)
    (h : body env fuel baud (getchar gap b w).1 s (getchar gap b w).2 = some x) :
    ∃ o, x.2.trace = w.trace ++ iterLog b o ∧ x.2.stdout = w.stdout ++ [b] ∧
      x.2.stderr = w.stderr ∧
      (o = none → x.2.pauses = w.pauses) ∧ (∀ k, o = some k → x.2.pauses = w.pauses + k) := by
  simp only [body, getchar, toUChar_val, Option.map_eq_some'] at h
  obtain ⟨y, hy, rfl⟩ := h
  split at hy
  · simp only [Option.some.injEq] at hy
    subst hy
    refine ⟨none, ?_, ?_, ?_, ?_, ?_⟩ <;>
      simp [iterLog, fflush, World.log, putchar, toInt, ftime, toUChar_val, restart]
  · obtain ⟨k, h1, h2, h3, h4⟩ := countAndThrottle_shape _ _ _ _ _ _ _ hy
    refine ⟨some k, ?_, ?_, ?_, ?_, ?_⟩
    · simp [iterLog, fflush, World.log, h1, putchar, toInt, toUChar_val]
    · simp [fflush, World.log, h2, putchar, toInt, toUChar_val]
    · simp [fflush, World.log, h3, putchar, toInt]
    · intro hk; exact absurd hk (by simp)
    · intro k' hk'
      simp only [Option.some.injEq] at hk'
      subst hk'
      simp [fflush, World.log, h4, putchar, toInt]

theorem loopHead_nil (env : Env) (fuel : Nat) (baud : Int) (s : State) (w : World) :
    loopHead env fuel baud [] s w = some (s, w) := rfl

theorem loopHead_cons (env : Env) (fuel : Nat) (baud : Int) (gap : Nat) (b : Fin 256)
    (rest : List (Nat × Fin 256)) (s : State) (w : World) :
    loopHead env fuel baud ((gap, b) :: rest) s w
      = match body env fuel baud (getchar gap b w).1 s (getchar gap b w).2 with
        | none => none
        | some x => loopHead env fuel baud rest x.1 x.2 := rfl

theorem mainLoop_nil (env : Env) (fuel : Nat) (baud : Int) (s : State) (w : World) :
    mainLoop env fuel baud [] s w = some (s, (getcharEOF w).2) := rfl

theorem mainLoop_cons (env : Env) (fuel : Nat) (baud : Int) (gap : Nat) (b : Fin 256)
    (rest : List (Nat × Fin 256)) (s : State) (w : World) :
    mainLoop env fuel baud ((gap, b) :: rest) s w
      = if (getchar gap b w).1 = -1 then some (s, (getchar gap b w).2)
        else match body env fuel baud (getchar gap b w).1 s (getchar gap b w).2 with
          | none => none
          | some x => mainLoop env fuel baud rest x.1 x.2 := rfl

theorem loopHead_shape (env : Env) (fuel : Nat) (baud : Int) :
    ∀ (inp : List (Nat × Fin 256)) (s : State) (w : World) (x : State × World),
      loopHead env fuel baud inp s w = some x →
      ∃ os : List (Option Nat), os.length = inp.length ∧
        x.2.trace = w.trace ++ runLog (inp.map Prod.snd) os ∧
        x.2.stdout = w.stdout ++ inp.map Prod.snd ∧ x.2.stderr = w.stderr := by
  intro inp
  induction inp with
  | nil =>
    intro s w x h
    rw [loopHead_nil, Option.some.injEq] at h
    subst h
    exact ⟨[], rfl, by simp [runLog], by simp, rfl⟩
  | cons p rest ih =>
    intro s w x h
    obtain ⟨gap, b⟩ := p
    rw [loopHead_cons] at h
    split at h
    · exact absurd h (by simp)
    · rename_i y hy
      obtain ⟨o, h1, h2, h3, _⟩ := body_shape env fuel baud gap b s w y hy
      obtain ⟨os, hl, g1, g2, g3⟩ := ih _ _ _ h
      refine ⟨o :: os, by simp [hl], ?_, ?_, ?_⟩
      · rw [g1, h1]; simp [runLog]
      · rw [g2, h2]; simp
      · rw [g3, h3]

/-- The main loop is its iterations followed by the `getchar` that meets the
end of input. -/
theorem mainLoop_eq_loopHead (env : Env) (fuel : Nat) (baud : Int) :
    ∀ (inp : List (Nat × Fin 256)) (s : State) (w : World),
      mainLoop env fuel baud inp s w
        = (loopHead env fuel baud inp s w).map (fun x => (x.1, (getcharEOF x.2).2)) := by
  intro inp
  induction inp with
  | nil => intro s w; rfl
  | cons p rest ih =>
    intro s w
    obtain ⟨gap, b⟩ := p
    have hne : (getchar gap b w).1 ≠ -1 := by
      simp only [getchar]; omega
    rw [mainLoop_cons, loopHead_cons, if_neg hne]
    cases hb : body env fuel baud (getchar gap b w).1 s (getchar gap b w).2 with
    | none => rfl
    | some y => exact ih y.1 y.2

/-! ## Arguments -/

theorem sscanf_d_eq_none (a : String) : sscanf_d a = none ↔ startsWithNumber a = false := by
  simp only [sscanf_d, startsWithNumber]
  generalize afterSign (a.toList.dropWhile isspace) = l
  cases l with
  | nil => simp
  | cons d t =>
    by_cases hd : d.isDigit = true
    · simp [List.takeWhile, hd]
    · simp [List.takeWhile, hd]

theorem main_usage (env : Env) (fuel : Nat) (argv : List String) (stdin : List (Nat × Fin 256))
    (w : World) (h : argv.length ≠ 2 ∨ sscanf_d (argv.getD 1 "") = none) :
    main env fuel argv stdin w
      = some { status := 1,
               world := { ((ftime env w).2.log Event.origin) with
                          stderr := w.stderr ++ usageMsg } } := by
  unfold main
  simp only [h, if_true]
  rfl

theorem main_accepted (env : Env) (fuel : Nat) (argv : List String)
    (stdin : List (Nat × Fin 256)) (w : World) (baud : Int) (hargc : argv.length = 2)
    (hrate : sscanf_d (argv.getD 1 "") = some baud) :
    main env fuel argv stdin w
      = (loopHead env fuel baud stdin (startup env w).1 (startup env w).2).map
          (fun x => { status := 0, world := printf trailer (getcharEOF x.2).2 }) := by
  have hc : ¬ (argv.length ≠ 2 ∨ (some baud : Option Int) = none) := by
    simp [hargc]
  unfold main
  simp only [hrate, if_neg hc, Option.getD_some, mainLoop_eq_loopHead]
  show (match (loopHead env fuel baud stdin (startup env w).1 (startup env w).2).map
          (fun x => (x.1, (getcharEOF x.2).2)) with
        | none => none
        | some x => some ({ status := 0, world := printf trailer x.2 } : Result)) = _
  cases loopHead env fuel baud stdin (startup env w).1 (startup env w).2 <;> rfl

/-- What an accepted run leaves on the streams and in the log. -/
theorem main_accepted_shape (env : Env) (fuel : Nat) (argv : List String)
    (stdin : List (Nat × Fin 256)) (w : World) (baud : Int) (r : Result)
    (hargc : argv.length = 2) (hrate : sscanf_d (argv.getD 1 "") = some baud)
    (h : main env fuel argv stdin w = some r) :
    r.status = 0 ∧ r.world.stderr = w.stderr ∧
      r.world.stdout = w.stdout ++ stdin.map Prod.snd ++ bytesOf trailer ∧
      ∃ os : List (Option Nat), os.length = stdin.length ∧
        r.world.trace = w.trace ++ [Event.origin] ++ runLog (stdin.map Prod.snd) os
          ++ [Event.read (-1)] := by
  rw [main_accepted env fuel argv stdin w baud hargc hrate] at h
  cases hl : loopHead env fuel baud stdin (startup env w).1 (startup env w).2 with
  | none => rw [hl] at h; exact absurd h (by simp)
  | some x =>
    rw [hl] at h
    simp only [Option.map_some', Option.some.injEq] at h
    subst h
    obtain ⟨os, hlen, h1, h2, h3⟩ := loopHead_shape env fuel baud stdin _ _ x hl
    refine ⟨rfl, ?_, ?_, os, hlen, ?_⟩
    · simp [printf, getcharEOF, World.log, h3, startup, restart, ftime, toInt]
    · simp [printf, getcharEOF, World.log, h2, startup, restart, ftime, toInt]
    · simp [printf, getcharEOF, World.log, h1, startup, restart, ftime, toInt]

/-! ## Runs on the nominal clock return -/

theorem ftime_toMs (env : Env) (w : World) :
    (ftime env w).1.toMs = w.now + env.lag w.reads := by
  simp only [ftime, Timeb.toMs]
  omega

theorem restart_nominal (baud : Int) (w : World) :
    NomInv baud (restart nominal w).1 (restart nominal w).2 := by
  have hl : (restart nominal w).1.last_ms = 0 := by
    simp only [restart]
    rw [get_ms_val, ftime_toMs]
    simp [ftime, World.log, nominal, wrap32]
  have he : (restart nominal w).2.now - (restart nominal w).1.start_time.toMs = 0 := by
    simp only [restart]
    rw [ftime_toMs]
    simp [ftime, World.log, nominal]
  exact ⟨hl, by rw [he], by rw [he]; norm_num, le_refl _, by rw [he]; simp [restart]⟩

theorem countAndThrottle_nominal (baud : Int) (hb0 : 0 < baud) (s : State) (e0 : Int)
    (w : World) (he0 : 0 ≤ e0) (hclk : w.now - s.start_time.toMs = e0) (hc0 : 0 ≤ s.chars)
    (hc1 : s.chars + 1 < 2147483648)
    (hrange : max e0 (((s.chars + 1) * 10000 + baud - 1) / baud) * baud < 2147483648)
    (fuel : Nat)
    (hfuel : (max 0 (((s.chars + 1) * 10000 + baud - 1) / baud - e0)).toNat ≤ fuel) :
    ∃ x, countAndThrottle nominal fuel baud s e0 w = some x ∧
      x.1 = { s with chars := s.chars + 1 } ∧
      x.2.now - s.start_time.toMs = max e0 (((s.chars + 1) * 10000 + baud - 1) / baud) ∧
      s.chars + 1 ≤ (x.2.now - s.start_time.toMs) * baud / 10000 := by
  have hn : (toInt (s.chars + 1) w).1 = s.chars + 1 := wrap32_eq_self (by omega) hc1
  obtain ⟨e, w', hrun, _, _, he, hle, hnow⟩ :=
    throttle_nominal_spec s.start_time baud (s.chars + 1) e0 (toInt (s.chars + 1) w).2 hb0 he0
      hclk hrange
  refine ⟨({ s with chars := s.chars + 1 }, w'), ?_, rfl, ?_, ?_⟩
  · unfold countAndThrottle
    simp only [hn]
    rw [hrun fuel hfuel]
  · rw [hnow, he]
  · rw [hnow]; exact hle

theorem body_nominal (baud : Int) (hb0 : 0 < baud) (hb1 : baud ≤ 20000000) (gap : Nat)
    (hgap : gap ≤ 2000000000) (b : Fin 256) (s : State) (w : World) (inv : NomInv baud s w)
    (fuel : Nat) (hfuel : 10101 ≤ fuel) :
    ∃ x, body nominal fuel baud (getchar gap b w).1 s (getchar gap b w).2 = some x ∧
      NomInv baud x.1 x.2 := by
  obtain ⟨hlast, hlo, hhi, hc0, hcb⟩ := inv
  generalize (getchar gap b w).1 = c
  have hnow1 : (putchar c (getchar gap b w).2).now = w.now + gap := rfl
  have hthis : (get_ms nominal s.start_time (putchar c (getchar gap b w).2)).1
      = w.now + gap - s.start_time.toMs := by
    rw [get_ms_val, hnow1]
    simp only [nominal, Nat.cast_zero, add_zero]
    rw [wrap32_eq_self] <;> omega
  have hd : (toInt ((get_ms nominal s.start_time (putchar c (getchar gap b w).2)).1 - s.last_ms)
      (get_ms nominal s.start_time (putchar c (getchar gap b w).2)).2).1
      = w.now + gap - s.start_time.toMs := by
    show wrap32 _ = _
    rw [hthis, hlast, sub_zero, wrap32_eq_self] <;> omega
  simp only [body]
  simp only [hd]
  by_cases hgt : w.now + gap - s.start_time.toMs > 100
  · simp only [hgt, if_true, Option.map_some']
    refine ⟨_, rfl, ?_⟩
    obtain ⟨h1, h2, h3, h4, h5⟩ := restart_nominal baud
      (toInt ((get_ms nominal s.start_time (putchar c (getchar gap b w).2)).1 - s.last_ms)
        (get_ms nominal s.start_time (putchar c (getchar gap b w).2)).2).2
    exact ⟨h1, h2, h3, h4, h5⟩
  · simp only [hgt, if_false]
    rw [hthis]
    have hclk : (toInt (w.now + gap - s.start_time.toMs - s.last_ms)
        (get_ms nominal s.start_time (putchar c (getchar gap b w).2)).2).2.now
        - s.start_time.toMs = w.now + gap - s.start_time.toMs := by
      simp [toInt, nominal, hnow1]
    have hcm : s.chars * 10000 ≤ (w.now - s.start_time.toMs) * baud :=
      (Int.le_ediv_iff_mul_le (by norm_num)).mp hcb
    have he100 : (w.now - s.start_time.toMs) * baud ≤ (w.now + gap - s.start_time.toMs) * baud :=
      Int.mul_le_mul_of_nonneg_right (by omega) hb0.le
    have ht100 : (w.now + gap - s.start_time.toMs) * baud ≤ 100 * baud :=
      Int.mul_le_mul_of_nonneg_right (by omega) hb0.le
    have hT1 := Int.ediv_mul_le ((s.chars + 1) * 10000 + baud - 1) (ne_of_gt hb0)
    have hTlt : ((s.chars + 1) * 10000 + baud - 1) / baud < 10101 := by
      have h : ((s.chars + 1) * 10000 + baud - 1) / baud * baud < 10101 * baud := by
        have : (10000 : Int) * 1 ≤ 10000 * baud :=
          Int.mul_le_mul_of_nonneg_left (by omega) (by norm_num)
        omega
      exact lt_of_mul_lt_mul_right h hb0.le
    have hrange : max (w.now + gap - s.start_time.toMs)
        (((s.chars + 1) * 10000 + baud - 1) / baud) * baud < 2147483648 := by
      rcases le_total (w.now + gap - s.start_time.toMs)
        (((s.chars + 1) * 10000 + baud - 1) / baud) with h | h
      · rw [max_eq_right h]; omega
      · rw [max_eq_left h]; omega
    obtain ⟨x, hx, hx1, hx2, hx3⟩ := countAndThrottle_nominal baud hb0 s
      (w.now + gap - s.start_time.toMs) _ (by omega) hclk hc0 (by omega) hrange fuel
      (by
        rcases le_total (((s.chars + 1) * 10000 + baud - 1) / baud
          - (w.now + gap - s.start_time.toMs)) 0 with h | h
        · rw [max_eq_left h]; simp
        · rw [max_eq_right h]; omega)
    rw [hx]
    refine ⟨_, rfl, ?_⟩
    have hnowf : (fflush x.2).now = x.2.now := rfl
    refine ⟨?_, ?_, ?_, ?_, ?_⟩
    · simp only [hx1]; exact hlast
    · simp only [hx1, hnowf]; rw [hx2]; exact le_trans (by omega) (le_max_left _ _)
    · simp only [hx1, hnowf]; rw [hx2]; exact max_le (by omega) (by omega)
    · simp only [hx1]; omega
    · simp only [hx1, hnowf]; exact hx3

theorem loopHead_nominal (baud : Int) (hb0 : 0 < baud) (hb1 : baud ≤ 20000000) (fuel : Nat)
    (hfuel : 10101 ≤ fuel) :
    ∀ (inp : List (Nat × Fin 256)), (∀ p ∈ inp, p.1 ≤ 2000000000) →
      ∀ (s : State) (w : World), NomInv baud s w →
      ∃ x, loopHead nominal fuel baud inp s w = some x ∧ NomInv baud x.1 x.2 := by
  intro inp
  induction inp with
  | nil => intro _ s w inv; exact ⟨(s, w), rfl, inv⟩
  | cons p rest ih =>
    intro hg s w inv
    obtain ⟨gap, b⟩ := p
    obtain ⟨y, hy, hinv⟩ := body_nominal baud hb0 hb1 gap
      (hg (gap, b) (List.mem_cons_self _ _)) b s w inv fuel hfuel
    rw [loopHead_cons, hy]
    exact ih (fun p hp => hg p (List.mem_cons_of_mem _ hp)) y.1 y.2 hinv

/-- On the nominal clock a run with an accepted rate between 1 and 20000000 and
input gaps up to 2000000000 ms reaches the end of `main`. -/
theorem main_nominal_returns (fuel : Nat) (hfuel : 10101 ≤ fuel) (argv : List String)
    (stdin : List (Nat × Fin 256)) (w : World) (baud : Int) (hargc : argv.length = 2)
    (hrate : sscanf_d (argv.getD 1 "") = some baud) (hb0 : 0 < baud) (hb1 : baud ≤ 20000000)
    (hg : ∀ p ∈ stdin, p.1 ≤ 2000000000) :
    ∃ r, main nominal fuel argv stdin w = some r := by
  obtain ⟨x, hx, _⟩ := loopHead_nominal baud hb0 hb1 fuel hfuel stdin hg _ _
    (restart_nominal baud w)
  rw [main_accepted nominal fuel argv stdin w baud hargc hrate]
  exact ⟨_, by rw [show startup nominal w = restart nominal w from rfl, hx]; rfl⟩

/-! ## Runs without overflow -/

set_option maxRecDepth 1000000

/-- Claim C1, evaluated.  On the clock that advances only by the pauses, rate
10000 and 50 back-to-back bytes take 50 ms, within the 50 to 70 ms of the
specification; but rate 50 and two back-to-back bytes take 200 ms, less than
the `2 * 8 * 1000 / 50 - 1 = 319` ms of the rate ceiling: the second byte finds
the window older than 100 ms, restarts it and passes unthrottled. -/
theorem rate_ceiling_at_50_baud :
    (main nominal 1 ["baudsim", "10000"] (List.replicate 50 (0, 65)) (World.init 0)).map
        (fun r => r.world.now - (World.init 0).now) = some 50 ∧
    (main nominal 200 ["baudsim", "50"] [(0, 65), (0, 66)] (World.init 0)).map
        (fun r => (r.world.now - (World.init 0).now, r.world.pauses, r.world.ovf))
      = some (200, 200, false) ∧
    (200 : Int) < 2 * 8 * 1000 / 50 - 1 := by
  refine ⟨?_, ?_, ?_⟩ <;> decide

/-- Claim C2.  For an accepted rate, whenever `main` returns (every throttle loop
has terminated), on any clock, the output stream holds the input bytes unchanged
and in order, each once, then the trailer, and the exit status is 0; and on the
nominal clock, for rates from 1 to 20000000 and gaps up to 2000000000 ms, `main`
does return once the fuel is 10101 or more. -/
theorem roundtrip_identity (argv : List String) (stdin : List (Nat × Fin 256)) (w : World)
    (baud : Int) (hargc : argv.length = 2) (hrate : sscanf_d (argv.getD 1 "") = some baud) :
    (∀ (env : Env) (fuel : Nat) (r : Result), main env fuel argv stdin w = some r →
      r.world.stdout = w.stdout ++ stdin.map Prod.snd ++ bytesOf "\nbaudsim terminates.\n" ∧
      r.status = 0) ∧
    (0 < baud → baud ≤ 20000000 → (∀ p ∈ stdin, p.1 ≤ 2000000000) →
      ∀ fuel, 10101 ≤ fuel → ∃ r, main nominal fuel argv stdin w = some r) := by
  refine ⟨?_, ?_⟩
  · intro env fuel r h
    obtain ⟨h1, _, h3, _⟩ := main_accepted_shape env fuel argv stdin w baud r hargc hrate h
    exact ⟨h3, h1⟩
  · intro hb0 hb1 hg fuel hfuel
    exact main_nominal_returns fuel hfuel argv stdin w baud hargc hrate hb0 hb1 hg

/-- Instance of claim C2: rate 9600, the bytes 0xFF, 0x00, 0x41 with a 150 ms gap
before the last one. -/
theorem roundtrip_identity_witness :
    (∀ (env : Env) (fuel : Nat) (r : Result),
      main env fuel ["baudsim", "9600"] [(0, 255), (0, 0), (150, 65)] (World.init 0) = some r →
      r.world.stdout = (World.init 0).stdout ++ [(0, 255), (0, 0), (150, 65)].map Prod.snd
        ++ bytesOf "\nbaudsim terminates.\n" ∧
      r.status = 0) ∧
    ((0 : Int) < 9600 → (9600 : Int) ≤ 20000000 →
      (∀ p ∈ [((0 : Nat), (255 : Fin 256)), (0, 0), (150, 65)], p.1 ≤ 2000000000) →
      ∀ fuel, 10101 ≤ fuel →
        ∃ r, main nominal fuel ["baudsim", "9600"] [(0, 255), (0, 0), (150, 65)] (World.init 0)
          = some r) :=
  roundtrip_identity ["baudsim", "9600"] [(0, 255), (0, 0), (150, 65)] (World.init 0) 9600
    (by decide) (by decide)

/-- Claim C4.  On the clock that advances exactly one millisecond per pause, for a
positive rate `r`, a byte count `n ≥ 1` and a starting reading `e0 ≥ 0` whose
products with the rate stay in `int` range, the throttle loop terminates, makes
exactly `max 0 (⌈n * 10000 / r⌉ - e0)` pauses (less fuel than that does not reach
the exit), and leaves a reading `e` with `n ≤ e * r / 10000`. -/
theorem throttle_within_allowance (st : Timeb) (r n e0 : Int) (w : World)
    (hr : 0 < r) (_hn : 1 ≤ n) (he0 : 0 ≤ e0) (hclk : w.now - st.toMs = e0)
    (hrange : max e0 ((n * 10000 + r - 1) / r) * r < 2147483648) :
    ∃ e w',
      (∀ fuel, (max 0 ((n * 10000 + r - 1) / r - e0)).toNat ≤ fuel →
        throttle nominal st n r fuel e0 w = some (e, w')) ∧
      (∀ fuel, fuel < (max 0 ((n * 10000 + r - 1) / r - e0)).toNat →
        throttle nominal st n r fuel e0 w = none) ∧
      (w'.pauses : Int) - w.pauses = max 0 ((n * 10000 + r - 1) / r - e0) ∧
      e = max e0 ((n * 10000 + r - 1) / r) ∧
      n ≤ e * r / 10000 := by
  obtain ⟨e, w', h1, h2, h3, h4, h5, _⟩ := throttle_nominal_spec st r n e0 w hr he0 hclk hrange
  exact ⟨e, w', h1, h2, h3, h4, h5⟩

/-- Instance of claim C4: rate 10000, third byte, clock at 0: three pauses. -/
theorem throttle_within_allowance_witness :
    ∃ e w',
      (∀ fuel, (max 0 (((3 : Int) * 10000 + 10000 - 1) / 10000 - 0)).toNat ≤ fuel →
        throttle nominal ⟨0, 0⟩ 3 10000 fuel 0 (World.init 0) = some (e, w')) ∧
      (∀ fuel, fuel < (max 0 (((3 : Int) * 10000 + 10000 - 1) / 10000 - 0)).toNat →
        throttle nominal ⟨0, 0⟩ 3 10000 fuel 0 (World.init 0) = none) ∧
      (w'.pauses : Int) - (World.init 0).pauses
        = max 0 (((3 : Int) * 10000 + 10000 - 1) / 10000 - 0) ∧
      e = max 0 (((3 : Int) * 10000 + 10000 - 1) / 10000) ∧
      3 ≤ e * 10000 / 10000 :=
  throttle_within_allowance ⟨0, 0⟩ 10000 3 0 (World.init 0) (by decide) (by decide) (by decide)
    (by decide) (by decide)

/-- Claim C5 as stated fails: with the argument `0` the conversion succeeds with
rate 0, and on empty input the run ends with status 0, nothing on the error
stream and the trailer on the output stream. -/
theorem rate_zero_not_rejected :
    sscanf_d "0" = some 0 ∧
    (main nominal 0 ["baudsim", "0"] [] (World.init 0)).map
        (fun r => (r.status, r.world.stderr, r.world.stdout))
      = some (0, "", bytesOf "\nbaudsim terminates.\n") := by
  refine ⟨?_, ?_⟩ <;> decide

/-- Claim C5, amended.  An argument that converts to zero or to a negative integer
is accepted: on any clock and input a run that returns has status 0, has added
nothing to the error stream and has copied the input and the trailer to the
output stream; and on empty input the run does return. -/
theorem nonpositive_rate_accepted (argv : List String) (stdin : List (Nat × Fin 256))
    (w : World) (baud : Int) (hargc : argv.length = 2)
    (hrate : sscanf_d (argv.getD 1 "") = some baud) (_hb : baud ≤ 0) :
    (∀ (env : Env) (fuel : Nat) (r : Result), main env fuel argv stdin w = some r →
      r.status = 0 ∧ r.world.stderr = w.stderr ∧
      r.world.stdout = w.stdout ++ stdin.map Prod.snd ++ bytesOf "\nbaudsim terminates.\n") ∧
    (∀ (env : Env) (fuel : Nat), ∃ r, main env fuel argv [] w = some r ∧ r.status = 0 ∧
      r.world.stderr = w.stderr) := by
  refine ⟨?_, ?_⟩
  · intro env fuel r h
    obtain ⟨h1, h2, h3, _⟩ := main_accepted_shape env fuel argv stdin w baud r hargc hrate h
    exact ⟨h1, h2, h3⟩
  · intro env fuel
    have h : main env fuel argv [] w
        = some { status := 0, world := printf trailer (getcharEOF (startup env w).2).2 } := by
      rw [main_accepted env fuel argv [] w baud hargc hrate, loopHead_nil]
      rfl
    obtain ⟨h1, h2, _⟩ := main_accepted_shape env fuel argv [] w baud _ hargc hrate h
    exact ⟨_, h, h1, h2⟩

/-- Instance of the amended claim C5: the argument `-5`. -/
theorem nonpositive_rate_accepted_witness :
    (∀ (env : Env) (fuel : Nat) (r : Result),
      main env fuel ["baudsim", "-5"] [(0, 65)] (World.init 0) = some r →
      r.status = 0 ∧ r.world.stderr = (World.init 0).stderr ∧
      r.world.stdout = (World.init 0).stdout ++ [((0 : Nat), (65 : Fin 256))].map Prod.snd
        ++ bytesOf "\nbaudsim terminates.\n") ∧
    (∀ (env : Env) (fuel : Nat), ∃ r,
      main env fuel ["baudsim", "-5"] [] (World.init 0) = some r ∧ r.status = 0 ∧
      r.world.stderr = (World.init 0).stderr) :=
  nonpositive_rate_accepted ["baudsim", "-5"] [(0, 65)] (World.init 0) (-5) (by decide)
    (by decide) (by decide)

/-- Claim C6.  When the argument count is not one, or the argument does not start
(after optional white space and sign) with a decimal digit, `main` returns with
status 1, the usage line appended to the error stream, the output stream
untouched and no input read (the log gains only the reading of `start_time`).
For every other invocation with a positive rate, a run that reaches the end of
input returns status 0 after the `getchar` that met the end of input; on the
nominal clock, for rates up to 20000000 and gaps up to 2000000000 ms, the run
does reach it. -/
theorem usage_or_exit_zero (env : Env) (fuel : Nat) (argv : List String)
    (stdin : List (Nat × Fin 256)) (w : World) :
    (argv.length ≠ 2 ∨ startsWithNumber (argv.getD 1 "") = false →
      ∃ r, main env fuel argv stdin w = some r ∧ r.status = 1 ∧
        r.world.stderr = w.stderr ++ "Usage:  baudsim <baud>\n" ∧
        r.world.stdout = w.stdout ∧ r.world.trace = w.trace ++ [Event.origin]) ∧
    (argv.length = 2 → startsWithNumber (argv.getD 1 "") = true →
      ∃ baud, sscanf_d (argv.getD 1 "") = some baud ∧
        (0 < baud →
          (∀ r, main env fuel argv stdin w = some r →
            r.status = 0 ∧ r.world.stderr = w.stderr ∧
            ∃ tr, r.world.trace = tr ++ [Event.read (-1)]) ∧
          (baud ≤ 20000000 → (∀ p ∈ stdin, p.1 ≤ 2000000000) → 10101 ≤ fuel →
            ∃ r, main nominal fuel argv stdin w = some r))) := by
  refine ⟨?_, ?_⟩
  · intro h
    have h' : argv.length ≠ 2 ∨ sscanf_d (argv.getD 1 "") = none := by
      rcases h with h | h
      · exact Or.inl h
      · exact Or.inr ((sscanf_d_eq_none _).mpr h)
    refine ⟨_, main_usage env fuel argv stdin w h', rfl, rfl, ?_, ?_⟩
    · simp [World.log, ftime]
    · simp [World.log, ftime]
  · intro hargc hnum
    cases hs : sscanf_d (argv.getD 1 "") with
    | none =>
      rw [(sscanf_d_eq_none _).mp hs] at hnum
      exact absurd hnum (by simp)
    | some baud =>
      refine ⟨baud, rfl, fun hb0 => ⟨?_, ?_⟩⟩
      · intro r h
        obtain ⟨h1, h2, _, os, _, h4⟩ :=
          main_accepted_shape env fuel argv stdin w baud r hargc hs h
        exact ⟨h1, h2, _, h4⟩
      · intro hb1 hg hfuel
        exact main_nominal_returns fuel hfuel argv stdin w baud hargc hs hb0 hb1 hg

/-- Instance of claim C6: no argument at all, and the argument `300`. -/
theorem usage_or_exit_zero_witness :
    (∃ r, main nominal 10101 ["baudsim"] [(0, 65)] (World.init 0) = some r ∧ r.status = 1 ∧
        r.world.stderr = (World.init 0).stderr ++ "Usage:  baudsim <baud>\n" ∧
        r.world.stdout = (World.init 0).stdout ∧
        r.world.trace = (World.init 0).trace ++ [Event.origin]) ∧
    (∃ baud, sscanf_d (["baudsim", "300"].getD 1 "") = some baud ∧
        (0 < baud →
          (∀ r, main nominal 10101 ["baudsim", "300"] [(0, 65)] (World.init 0) = some r →
            r.status = 0 ∧ r.world.stderr = (World.init 0).stderr ∧
            ∃ tr, r.world.trace = tr ++ [Event.read (-1)]) ∧
          (baud ≤ 20000000 → (∀ p ∈ [((0 : Nat), (65 : Fin 256))], p.1 ≤ 2000000000) →
            10101 ≤ 10101 →
            ∃ r, main nominal 10101 ["baudsim", "300"] [(0, 65)] (World.init 0) = some r))) :=
  ⟨(usage_or_exit_zero nominal 10101 ["baudsim"] [(0, 65)] (World.init 0)).1
      (Or.inl (by decide)),
    (usage_or_exit_zero nominal 10101 ["baudsim", "300"] [(0, 65)] (World.init 0)).2
      (by decide) (by decide)⟩

/-- Claim C7 as stated fails: at rate 10000 the single input byte is written, then
the loop pauses, and only then the byte is flushed. -/
theorem pause_before_flush :
    (main nominal 1 ["baudsim", "10000"] [(0, 65)] (World.init 0)).map
        (fun r => (r.world.trace, flushedBeforePause false r.world.trace))
      = some ([Event.origin, Event.read 65, Event.write 65, Event.pause, Event.flush,
                Event.read (-1)], false) := by
  decide

/-- Claim C7, amended.  In the log of every run of `main` that returns with an
accepted rate, each input byte contributes, in input order, its read, then its
write, then either the restart of the window or the pauses made for it, then
its flush: the write precedes every pause made for the byte, and the flush
follows all of them and precedes the next read. -/
theorem write_pause_flush_order (env : Env) (fuel : Nat) (argv : List String)
    (stdin : List (Nat × Fin 256)) (w : World) (baud : Int) (r : Result)
    (hargc : argv.length = 2) (hrate : sscanf_d (argv.getD 1 "") = some baud)
    (h : main env fuel argv stdin w = some r) :
    ∃ os : List (Option Nat), os.length = stdin.length ∧
      r.world.trace = w.trace ++ [Event.origin] ++ runLog (stdin.map Prod.snd) os
        ++ [Event.read (-1)] := by
  obtain ⟨_, _, _, h4⟩ := main_accepted_shape env fuel argv stdin w baud r hargc hrate h
  exact h4

/-- Instance of the amended claim C7: rate 10000, two back-to-back bytes. -/
theorem write_pause_flush_order_witness :
    ∃ r, main nominal 2 ["baudsim", "10000"] [(0, 65), (0, 66)] (World.init 0) = some r ∧
      ∃ os : List (Option Nat), os.length = [((0 : Nat), (65 : Fin 256)), (0, 66)].length ∧
        r.world.trace = (World.init 0).trace ++ [Event.origin]
          ++ runLog ([((0 : Nat), (65 : Fin 256)), (0, 66)].map Prod.snd) os
          ++ [Event.read (-1)] :=
  ⟨_, rfl, write_pause_flush_order nominal 2 ["baudsim", "10000"] [(0, 65), (0, 66)]
    (World.init 0) 10000 _ (by decide) (by decide) rfl⟩

end Baudsim

namespace Rocket

/-! ## The RocketFM packet -/

theorem toUChar_small (n : Nat) (h : n < 256) : toUChar (n : Int) = n := by
  unfold toUChar; omega

theorem high_byte_table : ∀ q, q < 8 → ∀ mono : Bool,
    ((q &&& 0x07) ||| (if mono then 0x40 else 0x48)) < 256 ∧
    ((q &&& 0x07) ||| (if mono then 0x40 else 0x48)) &&& 0x07 = q ∧
    (((q &&& 0x07) ||| (if mono then 0x40 else 0x48)) &&& 0x08 ≠ 0 ↔ mono = false) := by
  decide

theorem low_byte (f : Nat) : f &&& 0xFF = f % 256 :=
  Nat.and_pow_two_sub_one_eq_mod f 8

theorem high_low (f : Nat) : ((f >>> 8) <<< 8) ||| (f % 256) = f := by
  rw [Nat.shiftLeft_eq, Nat.shiftRight_eq_div_pow, Nat.mul_comm,
    ← Nat.mul_add_lt_is_or (Nat.mod_lt _ (by norm_num))]
  exact Nat.div_add_mod f (2 ^ 8)

theorem buildPacket_spec (f : Nat) (mono : Bool) (hf : f < 2048) :
    buildPacket f mono
      = [0xC0, ((f >>> 8) &&& 0x07) ||| (if mono then 0x40 else 0x48), f &&& 0xFF, 0x0C, 0x00,
          0x00] ∧
    decodeFreq (buildPacket f mono) = f ∧
    ((buildPacket f mono).getD 1 0 &&& 0x08 ≠ 0 ↔ mono = false) := by
  have hq : f >>> 8 < 8 := by
    rw [Nat.shiftRight_eq_div_pow]
    have : (2 : Nat) ^ 8 = 256 := by norm_num
    omega
  obtain ⟨h1, h2, h3⟩ := high_byte_table (f >>> 8) hq mono
  have hlow : f &&& 0xFF < 256 := by rw [low_byte]; omega
  have hp : buildPacket f mono
      = [0xC0, ((f >>> 8) &&& 0x07) ||| (if mono then 0x40 else 0x48), f &&& 0xFF, 0x0C, 0x00,
          0x00] := by
    have h0 : toUChar 0xC0 = 0xC0 := by decide
    have h3' : toUChar (low4 (~~~(2 * power + 1))) = 0x0C := by decide
    have h4 : toUChar 0x00 = 0x00 := by decide
    cases mono
    · simp only [buildPacket, h0, h3', h4, toUChar_small _ hlow, Bool.false_eq_true, if_false]
        at h1 ⊢
      rw [toUChar_small _ h1]
    · simp only [buildPacket, h0, h3', h4, toUChar_small _ hlow, if_true] at h1 ⊢
      rw [toUChar_small _ h1]
  refine ⟨hp, ?_, ?_⟩
  · rw [hp]
    simp only [decodeFreq, List.getD_cons_succ, List.getD_cons_zero]
    rw [h2, low_byte, high_low]
  · rw [hp]
    simp only [List.getD_cons_succ, List.getD_cons_zero]
    exact h3

/-- Claim C10.  For every encoded frequency `f < 2048`, the packet `main` sends for
`-freq` is `[0xC0, ((f >> 8) & 0x07) | m, f & 0xFF, 0x0C, 0x00, 0x00]` with
`m = 0x48` without `-m` and `m = 0x40` with `-m`; in both modes the frequency is
read back as `((PACKET[1] & 0x07) << 8) | PACKET[2]`, and bit `0x08` of
`PACKET[1]` is set exactly when `-m` is absent. -/
theorem packet_round_trip (prog fstr : String) (f : Nat) (hf : f < 2048) :
    main [prog, "-freq", fstr] f
      = Action.set [0xC0, ((f >>> 8) &&& 0x07) ||| 0x48, f &&& 0xFF, 0x0C, 0x00, 0x00] ∧
    main [prog, "-freq", fstr, "-m"] f
      = Action.set [0xC0, ((f >>> 8) &&& 0x07) ||| 0x40, f &&& 0xFF, 0x0C, 0x00, 0x00] ∧
    ∀ mono : Bool, decodeFreq (buildPacket f mono) = f ∧
      ((buildPacket f mono).getD 1 0 &&& 0x08 ≠ 0 ↔ mono = false) := by
  have hm : f % 65536 = f := Nat.mod_eq_of_lt (by omega)
  refine ⟨?_, ?_, fun mono => (buildPacket_spec f mono hf).2⟩
  · have h := (buildPacket_spec f false hf).1
    simp only [Bool.false_eq_true, if_false] at h
    simp [main, hm, h]
  · have h := (buildPacket_spec f true hf).1
    simp only [if_true] at h
    simp [main, hm, h]

/-- Instance of claim C10: 91.5 MHz, encoded as 915. -/
theorem packet_round_trip_witness :
    main ["rocket", "-freq", "91.5"] 915
      = Action.set [0xC0, ((915 >>> 8) &&& 0x07) ||| 0x48, 915 &&& 0xFF, 0x0C, 0x00, 0x00] ∧
    main ["rocket", "-freq", "91.5", "-m"] 915
      = Action.set [0xC0, ((915 >>> 8) &&& 0x07) ||| 0x40, 915 &&& 0xFF, 0x0C, 0x00, 0x00] ∧
    ∀ mono : Bool, decodeFreq (buildPacket 915 mono) = 915 ∧
      ((buildPacket 915 mono).getD 1 0 &&& 0x08 ≠ 0 ↔ mono = false) :=
  packet_round_trip "rocket" "91.5" 915 (by decide)

end Rocket
